import Mathlib

/-!
# Verification of the mini-pomodoro timer core

Shallow embedding of the timer/session state machine of the
mini-pomodoro repository:

* `src/src/state/timerStore.ts` — the RunStateStore (sanitize, hydrate,
  start, pause, resume, reset) backed by a single persisted record;
* `src/src/utils/time.ts` — `clampRemainingSec`, `computeRemainingSec`;
* the history repository (`normalizeHistory`, `readHistory`,
  `historyRepo.getAll`, `historyRepo.append`);
* the web variant of the store (`readState` of the localStorage-backed
  implementation), embedded separately where its behaviour differs.

JavaScript numbers are modelled as `JsNum`: a finite rational, or one of
the non-finite values `nan`, `posInf`, `negInf`.  `Math.round x` is
modelled as `⌊x + 1/2⌋`, which agrees with JavaScript semantics on exact
rationals, and `Math.ceil` as `Int.ceil`.  `Date.now()` is a parameter
`nowMs : Int` (epoch milliseconds); `new Date(ms).toISOString()` is an
abstract parameter `toISO : Int → String`; `Date.parse` is an abstract
parameter `parseMs : String → Int`.  Within one store operation the
several `Date.now()` reads are modelled as the same instant.

Storage is modelled per key: the run-state key holds a `RunStateCell`
and the history key a `HistoryCell`; the constructors distinguish an
absent/empty value, a string `JSON.parse` rejects, and a parsed JSON
value.  A parsed JSON value is abstracted to exactly the shape tests the
code performs (`typeof` checks on the consulted fields), via `JsField`.
-/

namespace MiniPomodoro

/-- A JavaScript number: finite (exact rational) or non-finite. -/
inductive JsNum where
  | fin (q : ℚ)
  | nan
  | posInf
  | negInf
deriving DecidableEq, Repr

/-- `Number.isFinite` on a `JsNum`. -/
def JsNum.isFinite : JsNum → Bool
  | .fin _ => true
  | _ => false

/-- JavaScript `Math.round` on an exact rational: round half away from
negative infinity, i.e. `⌊q + 1/2⌋`. -/
def jsRound (q : ℚ) : Int := Int.floor (q + 1 / 2)

/-- `POMODORO_SECONDS = SESSION_DURATION_SEC = 1500` (25 minutes). -/
def POMODORO_SECONDS : Int := 1500

/-- `clampRemainingSec` (src/src/utils/time.ts): non-finite input yields
`POMODORO_SECONDS`; otherwise `Math.min(1500, Math.max(0, Math.round value))`.
The result is always an integer. -/
def clampRemainingSec (value : JsNum) : Int :=
  match value with
  | .fin q => min POMODORO_SECONDS (max 0 (jsRound q))
  | _ => POMODORO_SECONDS

/-- `computeRemainingSec` (src/src/utils/time.ts):
`clampRemainingSec (Math.ceil ((endAtEpochMs - nowEpochMs) / 1000))`.
The deadline read from storage is a finite number (the sanitizer checks
`Number.isFinite`), so `endAtEpochMs : ℚ`. -/
def computeRemainingSec (endAtEpochMs : ℚ) (nowEpochMs : Int) : Int :=
  clampRemainingSec (.fin (⌈(endAtEpochMs - (nowEpochMs : ℚ)) / 1000⌉ : ℚ))

/-- One field of a value produced by `JSON.parse`, abstracted to the
shape the code tests with `typeof`: absent/undefined, a string, a
number, or anything else (null, boolean, object, array). -/
inductive JsField where
  | missing
  | str (s : String)
  | num (x : JsNum)
  | other
deriving DecidableEq, Repr

/-- A value produced by `JSON.parse` of the run-state key, abstracted to
what `sanitizeState` consults: either not a truthy object, or an object
with the four fields the store reads. -/
inductive StoredValue where
  | notObject
  | obj (status startedAtISO endAtEpochMs remainingSec : JsField)
deriving DecidableEq, Repr

/-- `RunStatus = "idle" | "running" | "paused"`. -/
inductive RunStatus where
  | idle
  | running
  | paused
deriving DecidableEq, Repr

/-- `PersistedRunState` as the store writes it (all numbers written by
the store are finite, and `remainingSec` is always an integer produced
by `clampRemainingSec` / `computeRemainingSec` / the constant 1500). -/
structure PersistedRunState where
  status : RunStatus
  startedAtISO : Option String
  endAtEpochMs : Option ℚ
  remainingSec : Int
deriving DecidableEq, Repr

/-- `createIdleState` (src/src/state/timerStore.ts). -/
def createIdleState : PersistedRunState :=
  { status := .idle
    startedAtISO := none
    endAtEpochMs := none
    remainingSec := POMODORO_SECONDS }

/-- The `isRunStatus` guard combined with the conditional
`status = isRunStatus(candidate.status) ? candidate.status : "idle"`. -/
def parseStatus : JsField → RunStatus
  | .str "idle" => .idle
  | .str "running" => .running
  | .str "paused" => .paused
  | _ => .idle

/-- `typeof candidate.startedAtISO === "string" ? candidate.startedAtISO : null`. -/
def parseStartedAt : JsField → Option String
  | .str s => some s
  | _ => none

/-- `typeof candidate.endAtEpochMs === "number" && Number.isFinite(...)
? candidate.endAtEpochMs : null`. -/
def parseEndAt : JsField → Option ℚ
  | .num (.fin q) => some q
  | _ => none

/-- `typeof candidate.remainingSec === "number" ? candidate.remainingSec
: POMODORO_SECONDS`, before clamping. -/
def parseRemaining : JsField → JsNum
  | .num x => x
  | _ => .fin (POMODORO_SECONDS : ℚ)

/-- `sanitizeState` (src/src/state/timerStore.ts lines 20–55). -/
def sanitizeState (value : StoredValue) : PersistedRunState :=
  match value with
  | .notObject => createIdleState
  | .obj st sa ea rs =>
    let status := parseStatus st
    let startedAtISO := parseStartedAt sa
    let endAtEpochMs := parseEndAt ea
    let remainingSec := clampRemainingSec (parseRemaining rs)
    if status = .idle then
      createIdleState
    else if status = .running ∧ endAtEpochMs = none then
      { status := .paused
        startedAtISO := startedAtISO
        endAtEpochMs := none
        remainingSec := remainingSec }
    else
      { status := status
        startedAtISO := startedAtISO
        endAtEpochMs := endAtEpochMs
        remainingSec := remainingSec }

/-- Content of the storage slot under the run-state key: absent (or the
empty string, which the falsy test also sends to the idle default), a
string `JSON.parse` throws on, or a string parsing to a JSON value. -/
inductive RunStateCell where
  | empty
  | notJson
  | json (v : StoredValue)
deriving DecidableEq, Repr

/-- `readRunState` (src/src/state/timerStore.ts lines 57–69). -/
def readRunState : RunStateCell → PersistedRunState
  | .empty => createIdleState
  | .notJson => createIdleState
  | .json v => sanitizeState v

/-- `JSON.stringify` of a `PersistedRunState`, re-read as a JSON value:
`null` fields become non-string/non-number fields, numbers stay finite
numbers. -/
def encodeRunState (s : PersistedRunState) : StoredValue :=
  .obj
    (.str (match s.status with
      | .idle => "idle"
      | .running => "running"
      | .paused => "paused"))
    (match s.startedAtISO with
      | some v => .str v
      | none => .other)
    (match s.endAtEpochMs with
      | some q => .num (.fin q)
      | none => .other)
    (.num (.fin (s.remainingSec : ℚ)))

/-- `writeRunState`: `AsyncStorage.setItem(RUN_STATE_KEY, JSON.stringify state)`. -/
def writeRunState (s : PersistedRunState) : RunStateCell :=
  .json (encodeRunState s)

/-- `hydrate` (src/src/state/timerStore.ts lines 75–98), as a function
of the storage cell and the clock; returns the new cell and the state
returned to the caller. -/
def hydrate (cell : RunStateCell) (nowMs : Int) : RunStateCell × PersistedRunState :=
  let current := readRunState cell
  match current.status, current.endAtEpochMs with
  | .running, some e =>
    let next := { current with remainingSec := computeRemainingSec e nowMs }
    (writeRunState next, next)
  | .paused, _ =>
    let normalizedPaused :=
      { current with remainingSec := clampRemainingSec (.fin (current.remainingSec : ℚ)) }
    (writeRunState normalizedPaused, normalizedPaused)
  | _, _ => (cell, current)

/-- `start` (src/src/state/timerStore.ts lines 100–109): ignores the
prior cell and persists a fresh running record. -/
def start (toISO : Int → String) (nowMs : Int) : RunStateCell :=
  writeRunState
    { status := .running
      startedAtISO := some (toISO nowMs)
      endAtEpochMs := some ((nowMs : ℚ) + (POMODORO_SECONDS : ℚ) * 1000)
      remainingSec := POMODORO_SECONDS }

/-- `pause` (src/src/state/timerStore.ts lines 111–124): hydrates, then
is a no-op unless the hydrated state is running with a non-null
deadline. -/
def pause (cell : RunStateCell) (nowMs : Int) : RunStateCell :=
  let r := hydrate cell nowMs
  match r.2.status, r.2.endAtEpochMs with
  | .running, some e =>
    writeRunState
      { status := .paused
        startedAtISO := r.2.startedAtISO
        endAtEpochMs := none
        remainingSec := computeRemainingSec e nowMs }
  | _, _ => r.1

/-- `reset` (src/src/state/timerStore.ts lines 148–150). -/
def reset (_cell : RunStateCell) : RunStateCell :=
  writeRunState createIdleState

/-- `resume` (src/src/state/timerStore.ts lines 126–146): hydrates, is a
no-op unless paused; delegates to `reset` when `remainingSec ≤ 0`. -/
def resume (toISO : Int → String) (cell : RunStateCell) (nowMs : Int) : RunStateCell :=
  let r := hydrate cell nowMs
  if r.2.status ≠ .paused then r.1
  else if r.2.remainingSec ≤ 0 then reset r.1
  else
    writeRunState
      { status := .running
        startedAtISO := some ((r.2.startedAtISO).getD (toISO nowMs))
        endAtEpochMs :=
          some ((nowMs : ℚ) + (clampRemainingSec (.fin (r.2.remainingSec : ℚ)) : ℚ) * 1000)
        remainingSec := clampRemainingSec (.fin (r.2.remainingSec : ℚ)) }

/-- The RunState invariant of the specification: Running has a non-null
deadline, and Idle is the canonical idle record. -/
def RunStateInvariant (s : PersistedRunState) : Prop :=
  (s.status = .running → s.endAtEpochMs ≠ none) ∧
  (s.status = .idle →
    s.startedAtISO = none ∧ s.endAtEpochMs = none ∧ s.remainingSec = POMODORO_SECONDS)

instance (s : PersistedRunState) : Decidable (RunStateInvariant s) := by
  unfold RunStateInvariant; infer_instance

/-! ## The web variant of the store (localStorage-backed) -/

/-- The run-state record of the web store: `endAtEpochMs` is kept
whenever it is a number — the web reader performs no `Number.isFinite`
check, so the deadline may be any `JsNum`. -/
structure WebRunState where
  status : RunStatus
  startedAtISO : Option String
  endAtEpochMs : Option JsNum
  remainingSec : Int
deriving DecidableEq, Repr

/-- The web store's idle record (`createIdleState` of the web file). -/
def webIdleState : WebRunState :=
  { status := .idle
    startedAtISO := none
    endAtEpochMs := none
    remainingSec := POMODORO_SECONDS }

/-- `readState` of the web store, applied to a parsed JSON value
(the surrounding `try`/falsy checks send `empty`/`notJson` cells to the
idle record).  Status defaults to idle; a running record whose
`endAtEpochMs` field is not a number keeps `status = running` with a
null deadline — this reader has no degrade-to-paused branch. -/
def readStateWeb (value : StoredValue) : WebRunState :=
  match value with
  | .notObject => webIdleState
  | .obj st sa ea rs =>
    let status : RunStatus :=
      match st with
      | .str "running" => .running
      | .str "paused" => .paused
      | _ => .idle
    if status = .idle then webIdleState
    else
      { status := status
        startedAtISO := parseStartedAt sa
        endAtEpochMs :=
          (match ea with
            | .num x => some x
            | _ => none)
        remainingSec := clampRemainingSec (parseRemaining rs) }

/-- The RunState invariant, on the web store's record type. -/
def WebRunStateInvariant (s : WebRunState) : Prop :=
  (s.status = .running → s.endAtEpochMs ≠ none) ∧
  (s.status = .idle →
    s.startedAtISO = none ∧ s.endAtEpochMs = none ∧ s.remainingSec = POMODORO_SECONDS)

instance (s : WebRunState) : Decidable (WebRunStateInvariant s) := by
  unfold WebRunStateInvariant; infer_instance

/-! ## The history log -/

/-- `SessionEntry` as appended by the caller.  In the source type
`durationSec` is the literal `1500` (`typeof SESSION_DURATION_SEC`), so
it carries no information and is represented implicitly: every entry
value has `durationSec = 1500`. -/
structure SessionEntry where
  id : String
  startedAtISO : String
  completedAtISO : String
deriving DecidableEq, Repr

/-- One element of a parsed history array, abstracted to the fields the
shape check consults. -/
inductive HistItem where
  | notObject
  | obj (id startedAtISO completedAtISO durationSec : JsField)
deriving DecidableEq, Repr

/-- `isSessionEntry` (history repository): the three string fields plus
`durationSec === SESSION_DURATION_SEC`; combined with the coercion the
filter performs, it extracts the `SessionEntry`.  (`NaN === 1500` is
false, so a non-finite `durationSec` fails the check.) -/
def toSessionEntry : HistItem → Option SessionEntry
  | .obj (.str i) (.str s) (.str c) (.num (.fin d)) =>
    if d = (POMODORO_SECONDS : ℚ) then some ⟨i, s, c⟩ else none
  | _ => none

/-- Descending-by-`completedAt` comparator: the source sorts with
`(a, b) => Date.parse(b.completedAtISO) - Date.parse(a.completedAtISO)`,
which orders `a` before `b` exactly when `parseMs b ≤ parseMs a`. -/
def completedDesc (parseMs : String → Int) (a b : SessionEntry) : Bool :=
  decide (parseMs b.completedAtISO ≤ parseMs a.completedAtISO)

/-- A parsed JSON value under the history key: an array or not. -/
inductive ParsedJson where
  | notArray
  | arr (items : List HistItem)
deriving DecidableEq, Repr

/-- `normalizeHistory`: non-arrays give `[]`; arrays are filtered by the
shape check and sorted newest-first. -/
def normalizeHistory (parseMs : String → Int) : ParsedJson → List SessionEntry
  | .notArray => []
  | .arr items => (items.filterMap toSessionEntry).mergeSort (completedDesc parseMs)

/-- Content of the storage slot under the history key. -/
inductive HistoryCell where
  | empty
  | notJson
  | json (v : ParsedJson)
deriving DecidableEq, Repr

/-- `readHistory` (= `historyRepo.getAll`): absent and unparsable
storage give the empty collection. -/
def readHistory (parseMs : String → Int) : HistoryCell → List SessionEntry
  | .empty => []
  | .notJson => []
  | .json v => normalizeHistory parseMs v

/-- `JSON.stringify` of one entry, re-read as a JSON value. -/
def encodeEntry (e : SessionEntry) : HistItem :=
  .obj (.str e.id) (.str e.startedAtISO) (.str e.completedAtISO)
    (.num (.fin (POMODORO_SECONDS : ℚ)))

/-- `historyRepo.append`: read the valid entries, cons the new entry,
re-sort descending, persist the whole collection. -/
def append (parseMs : String → Int) (cell : HistoryCell) (entry : SessionEntry) :
    HistoryCell :=
  let current := readHistory parseMs cell
  let next := (entry :: current).mergeSort (completedDesc parseMs)
  .json (.arr (next.map encodeEntry))

/-- A sequence of `append` calls, oldest first. -/
def appendAll (parseMs : String → Int) (cell : HistoryCell) (es : List SessionEntry) :
    HistoryCell :=
  es.foldl (append parseMs) cell

/-! ## The two-key store -/

/-- The whole key-value store visible to the core: the run-state key and
the history key (`RUN_STATE_KEY` and `HISTORY_KEY` are distinct). -/
structure Store where
  runState : RunStateCell
  history : HistoryCell
deriving DecidableEq, Repr

/-- `timerStore.start` at the level of the whole store: it performs a
single `setItem` under the run-state key. -/
def startStore (toISO : Int → String) (nowMs : Int) (s : Store) : Store :=
  { s with runState := start toISO nowMs }

/-- Well-formedness of a record the store writes: the RunState invariant
plus `remainingSec ∈ [0, 1500]`.  Every record produced by the store's
operations satisfies it, and on such records the write/read round trip
is the identity. -/
def WellFormedRun (s : PersistedRunState) : Prop :=
  RunStateInvariant s ∧ 0 ≤ s.remainingSec ∧ s.remainingSec ≤ POMODORO_SECONDS

/-! ## Helper lemmas -/

theorem jsRound_intCast (n : ℤ) : jsRound (n : ℚ) = n := by
  unfold jsRound
  rw [Int.floor_eq_iff]
  constructor
  · norm_num
  · norm_num

theorem clampRemainingSec_intCast (n : ℤ) :
    clampRemainingSec (.fin (n : ℚ)) = min 1500 (max 0 n) := by
  simp [clampRemainingSec, jsRound_intCast, POMODORO_SECONDS]

theorem clampRemainingSec_of_mem (n : ℤ) (h0 : 0 ≤ n) (h1 : n ≤ 1500) :
    clampRemainingSec (.fin (n : ℚ)) = n := by
  rw [clampRemainingSec_intCast]
  omega

theorem clampRemainingSec_nonneg (x : JsNum) : 0 ≤ clampRemainingSec x := by
  cases x <;> simp [clampRemainingSec, POMODORO_SECONDS]

theorem clampRemainingSec_le (x : JsNum) : clampRemainingSec x ≤ POMODORO_SECONDS := by
  cases x <;> simp [clampRemainingSec, POMODORO_SECONDS]

theorem computeRemainingSec_eq_clamp (e : ℚ) (nowMs : Int) :
    computeRemainingSec e nowMs = min 1500 (max 0 ⌈(e - (nowMs : ℚ)) / 1000⌉) := by
  unfold computeRemainingSec
  exact clampRemainingSec_intCast _

theorem computeRemainingSec_nonneg (e : ℚ) (nowMs : Int) :
    0 ≤ computeRemainingSec e nowMs :=
  clampRemainingSec_nonneg _

theorem computeRemainingSec_le (e : ℚ) (nowMs : Int) :
    computeRemainingSec e nowMs ≤ POMODORO_SECONDS :=
  clampRemainingSec_le _

theorem sanitizeState_invariant (v : StoredValue) :
    RunStateInvariant (sanitizeState v) := by
  cases v with
  | notObject => simp [sanitizeState, RunStateInvariant, createIdleState]
  | obj st sa ea rs =>
    simp only [sanitizeState]
    rcases hst : parseStatus st with _ | _ | _ <;>
      rcases hea : parseEndAt ea with _ | q <;>
        simp [RunStateInvariant, createIdleState, hst, hea]

/-- The degrade-to-paused branch of `sanitizeState`. -/
theorem sanitizeState_running_null (st sa ea rs : JsField)
    (hst : parseStatus st = .running) (hea : parseEndAt ea = none) :
    sanitizeState (.obj st sa ea rs) =
      { status := .paused
        startedAtISO := parseStartedAt sa
        endAtEpochMs := none
        remainingSec := clampRemainingSec (parseRemaining rs) } := by
  simp [sanitizeState, hst, hea]

/-- Reading back a well-formed written record yields the record itself. -/
theorem readRunState_writeRunState (s : PersistedRunState) (h : WellFormedRun s) :
    readRunState (writeRunState s) = s := by
  obtain ⟨⟨hrun, hidle⟩, h0, h1⟩ := h
  obtain ⟨st, sa, ea, rs⟩ := s
  cases st with
  | idle =>
    obtain ⟨hsa, hea, hrs⟩ := hidle rfl
    simp only at hsa hea hrs
    subst hsa; subst hea; subst hrs
    simp [readRunState, writeRunState, encodeRunState, sanitizeState, parseStatus,
      createIdleState]
  | running =>
    have hea : ea ≠ none := hrun rfl
    obtain ⟨q, hq⟩ := Option.ne_none_iff_exists'.mp hea
    subst hq
    cases sa <;>
      simp [readRunState, writeRunState, encodeRunState, sanitizeState, parseStatus,
        parseStartedAt, parseEndAt, parseRemaining, clampRemainingSec_of_mem rs h0 h1]
  | paused =>
    cases sa <;> cases ea <;>
      simp [readRunState, writeRunState, encodeRunState, sanitizeState, parseStatus,
        parseStartedAt, parseEndAt, parseRemaining, clampRemainingSec_of_mem rs h0 h1]

/-- `hydrate` on the storage cell of a well-formed running record with a
given deadline recomputes `remainingSec` from the deadline. -/
theorem hydrate_of_running (cell : RunStateCell) (nowMs : Int) (e : ℚ)
    (hs : (readRunState cell).status = .running)
    (he : (readRunState cell).endAtEpochMs = some e) :
    hydrate cell nowMs =
      (writeRunState { readRunState cell with remainingSec := computeRemainingSec e nowMs },
       { readRunState cell with remainingSec := computeRemainingSec e nowMs }) := by
  simp only [hydrate, hs, he]

/-- `hydrate` on the storage cell of a paused record re-clamps
`remainingSec` and writes the result back. -/
theorem hydrate_of_paused (cell : RunStateCell) (nowMs : Int)
    (hs : (readRunState cell).status = .paused) :
    hydrate cell nowMs =
      (writeRunState
        { readRunState cell with
            remainingSec := clampRemainingSec (.fin ((readRunState cell).remainingSec : ℚ)) },
       { readRunState cell with
            remainingSec := clampRemainingSec (.fin ((readRunState cell).remainingSec : ℚ)) }) := by
  simp only [hydrate, hs]

/-! ## History helper lemmas -/

theorem toSessionEntry_encodeEntry (e : SessionEntry) :
    toSessionEntry (encodeEntry e) = some e := by
  simp [toSessionEntry, encodeEntry]

theorem filterMap_toSessionEntry_encode (l : List SessionEntry) :
    (l.map encodeEntry).filterMap toSessionEntry = l := by
  induction l with
  | nil => rfl
  | cons e es ih => simp [toSessionEntry_encodeEntry, ih]

/-- One `append` adds exactly the new entry, up to reordering. -/
theorem readHistory_append_perm (parseMs : String → Int) (cell : HistoryCell)
    (e : SessionEntry) :
    List.Perm (readHistory parseMs (append parseMs cell e))
      (e :: readHistory parseMs cell) := by
  simp only [append, readHistory, normalizeHistory, filterMap_toSessionEntry_encode]
  exact (List.mergeSort_perm _ _).trans (List.mergeSort_perm _ _)

/-- A sequence of `append` calls adds exactly the appended entries, up
to reordering. -/
theorem readHistory_appendAll_perm (parseMs : String → Int) (es : List SessionEntry)
    (cell : HistoryCell) :
    List.Perm (readHistory parseMs (appendAll parseMs cell es))
      (es ++ readHistory parseMs cell) := by
  induction es generalizing cell with
  | nil => simp [appendAll]
  | cons e es ih =>
    have h1 : List.Perm (readHistory parseMs (appendAll parseMs cell (e :: es)))
        (es ++ readHistory parseMs (append parseMs cell e)) := ih (append parseMs cell e)
    have h2 : List.Perm (es ++ readHistory parseMs (append parseMs cell e))
        (es ++ (e :: readHistory parseMs cell)) :=
      List.Perm.append_left es (readHistory_append_perm parseMs cell e)
    exact (h1.trans h2).trans List.perm_middle

/-- The comparator is transitive. -/
theorem completedDesc_trans (parseMs : String → Int) (a b c : SessionEntry)
    (h1 : completedDesc parseMs a b) (h2 : completedDesc parseMs b c) :
    completedDesc parseMs a c := by
  simp only [completedDesc, decide_eq_true_eq] at h1 h2 ⊢
  omega

/-- The comparator is total. -/
theorem completedDesc_total (parseMs : String → Int) (a b : SessionEntry) :
    completedDesc parseMs a b || completedDesc parseMs b a := by
  simp only [completedDesc, Bool.or_eq_true, decide_eq_true_eq]
  omega

/-- The collection read back after an `append` is sorted newest-first
(non-strictly). -/
theorem readHistory_append_sorted (parseMs : String → Int) (cell : HistoryCell)
    (e : SessionEntry) :
    (readHistory parseMs (append parseMs cell e)).Pairwise
      (fun a b => parseMs b.completedAtISO ≤ parseMs a.completedAtISO) := by
  simp only [append, readHistory, normalizeHistory, filterMap_toSessionEntry_encode]
  have h := List.sorted_mergeSort
    (completedDesc_trans parseMs) (completedDesc_total parseMs)
    ((e :: readHistory parseMs cell).mergeSort (completedDesc parseMs))
  exact h.imp (fun hab => by simpa [completedDesc] using hab)

/-- After a non-empty sequence of `append` calls the collection read
back is sorted newest-first (non-strictly). -/
theorem readHistory_appendAll_sorted (parseMs : String → Int) (es : List SessionEntry)
    (e : SessionEntry) (cell : HistoryCell) :
    (readHistory parseMs (appendAll parseMs cell (e :: es))).Pairwise
      (fun a b => parseMs b.completedAtISO ≤ parseMs a.completedAtISO) := by
  induction es generalizing e cell with
  | nil => exact readHistory_append_sorted parseMs cell e
  | cons e2 es ih => exact ih e2 (append parseMs cell e)

/-! ## Claims -/

/-- C1 (amended): every stored run-state value read through the native
store's `sanitizeState` normalizes to a state satisfying the RunState
invariant, and a stored record with status `running` and null `endAt`
is degraded to `paused` keeping its clamped `remainingSec`.  (The web
store's `readState` performs no such degradation; see the
counterexample.) -/
theorem C1_sanitizeState_normalizes (v : StoredValue) :
    RunStateInvariant (sanitizeState v) ∧
    (∀ st sa ea rs, v = .obj st sa ea rs → parseStatus st = .running →
      parseEndAt ea = none →
      sanitizeState v =
        { status := .paused
          startedAtISO := parseStartedAt sa
          endAtEpochMs := none
          remainingSec := clampRemainingSec (parseRemaining rs) }) :=
  ⟨sanitizeState_invariant v, fun st sa ea rs hv hst hea =>
    hv ▸ sanitizeState_running_null st sa ea rs hst hea⟩

/-- C1 witness: the stored record
`{status: "running", startedAtISO: "x", endAtEpochMs: null, remainingSec: 600}`
sanitizes to a paused state with `remainingSec = 600`, satisfying the
invariant. -/
theorem C1_witness :
    RunStateInvariant
      (sanitizeState (.obj (.str "running") (.str "x") .other (.num (.fin 600)))) ∧
    sanitizeState (.obj (.str "running") (.str "x") .other (.num (.fin 600))) =
      { status := .paused
        startedAtISO := some "x"
        endAtEpochMs := none
        remainingSec := 600 } := by
  obtain ⟨h1, h2⟩ :=
    C1_sanitizeState_normalizes (.obj (.str "running") (.str "x") .other (.num (.fin 600)))
  refine ⟨h1, ?_⟩
  have h3 := h2 _ _ _ _ rfl (by simp [parseStatus]) (by simp [parseEndAt])
  rw [h3]
  have hc := clampRemainingSec_intCast 600
  norm_num at hc
  simp [parseStartedAt, parseRemaining, hc]

/-- C1 counterexample: the web store's `readState`, on the stored record
`{status: "running", startedAtISO: null, endAtEpochMs: null,
remainingSec: 600}`, returns a state that still has status `running`
with a null `endAt` — the RunState invariant is violated and the record
is not degraded to `paused`. -/
theorem C1_counterexample :
    ¬ WebRunStateInvariant
        (readStateWeb (.obj (.str "running") .other .other (.num (.fin 600)))) ∧
    (readStateWeb (.obj (.str "running") .other .other (.num (.fin 600)))).status =
      .running := by
  constructor
  · simp [WebRunStateInvariant, readStateWeb, parseStartedAt, parseRemaining]
  · simp [readStateWeb]

/-- C2: for every persisted state read back with status `running` and a
non-null deadline `e`, and every clock value, `hydrate` writes back and
returns the same state with `remainingSec` recomputed as
`clamp(ceil((endAt − now)/1000), 0, 1500)` and all other fields
unchanged. -/
theorem C2_hydrate_recomputes (cell : RunStateCell) (nowMs : Int) (e : ℚ)
    (hs : (readRunState cell).status = .running)
    (he : (readRunState cell).endAtEpochMs = some e) :
    hydrate cell nowMs =
      (writeRunState
        { readRunState cell with
            remainingSec := min 1500 (max 0 ⌈(e - (nowMs : ℚ)) / 1000⌉) },
       { readRunState cell with
            remainingSec := min 1500 (max 0 ⌈(e - (nowMs : ℚ)) / 1000⌉) }) := by
  rw [hydrate_of_running cell nowMs e hs he, computeRemainingSec_eq_clamp]

/-- C2 witness: a stored running state with deadline 5000 ms, hydrated
at time 0, comes back with `remainingSec = 5`. -/
theorem C2_witness :
    (readRunState (.json (.obj (.str "running") (.str "s") (.num (.fin 5000))
        (.num (.fin 100))))).status = .running ∧
    hydrate (.json (.obj (.str "running") (.str "s") (.num (.fin 5000))
        (.num (.fin 100)))) 0 =
      (writeRunState
        { status := .running
          startedAtISO := some "s"
          endAtEpochMs := some 5000
          remainingSec := 5 },
       { status := .running
         startedAtISO := some "s"
         endAtEpochMs := some 5000
         remainingSec := 5 }) := by
  have hc := clampRemainingSec_intCast 100
  norm_num at hc
  have hread : readRunState (.json (.obj (.str "running") (.str "s") (.num (.fin 5000))
      (.num (.fin 100)))) =
      { status := .running
        startedAtISO := some "s"
        endAtEpochMs := some 5000
        remainingSec := 100 } := by
    simp [readRunState, sanitizeState, parseStatus, parseStartedAt, parseEndAt,
      parseRemaining, hc]
  refine ⟨by rw [hread], ?_⟩
  rw [C2_hydrate_recomputes _ 0 5000 (by rw [hread]) (by rw [hread]), hread]
  norm_num

/-- C4: a non-JSON string under the run-state key makes `hydrate` return
the idle state (and leave storage untouched), and a non-JSON string
under the history key makes `getAll` return the empty collection; both
are total functions in the model, i.e. neither throws. -/
theorem C4_corrupt_storage (nowMs : Int) (parseMs : String → Int) :
    hydrate .notJson nowMs = (.notJson, createIdleState) ∧
    readHistory parseMs .notJson = [] := by
  refine ⟨?_, rfl⟩
  simp [hydrate, readRunState, createIdleState]

/-- C6: from any stored state that reads back as `paused` with
`remainingSec ≤ 0`, `resume` leaves storage exactly as `reset` would:
the canonical idle record. -/
theorem C6_resume_expired (toISO : Int → String) (cell : RunStateCell) (nowMs : Int)
    (hs : (readRunState cell).status = .paused)
    (hr : (readRunState cell).remainingSec ≤ 0) :
    resume toISO cell nowMs = reset cell := by
  have hclamp : clampRemainingSec (.fin ((readRunState cell).remainingSec : ℚ)) = 0 := by
    rw [clampRemainingSec_intCast]
    omega
  unfold resume
  rw [hydrate_of_paused cell nowMs hs]
  simp [hs, hclamp, reset]

/-- C6 witness: a stored paused record with `remainingSec = 0`; resuming
equals resetting. -/
theorem C6_witness :
    (readRunState (.json (.obj (.str "paused") (.str "s") .other
        (.num (.fin 0))))).status = .paused ∧
    (readRunState (.json (.obj (.str "paused") (.str "s") .other
        (.num (.fin 0))))).remainingSec ≤ 0 ∧
    resume (fun _ => "t") (.json (.obj (.str "paused") (.str "s") .other
        (.num (.fin 0)))) 1000 =
      reset (.json (.obj (.str "paused") (.str "s") .other (.num (.fin 0)))) := by
  have hc := clampRemainingSec_intCast 0
  norm_num at hc
  have hread : readRunState (.json (.obj (.str "paused") (.str "s") .other
      (.num (.fin 0)))) =
      { status := .paused
        startedAtISO := some "s"
        endAtEpochMs := none
        remainingSec := 0 } := by
    simp [readRunState, sanitizeState, parseStatus, parseStartedAt, parseEndAt,
      parseRemaining, hc]
  exact ⟨by rw [hread], by rw [hread],
    C6_resume_expired (fun _ => "t") _ 1000 (by rw [hread]) (by rw [hread])⟩

/-- C7: `start` ignores the prior state, persists exactly the running
record `{status: running, startedAt: now as ISO, endAt: now + 1500·1000,
remainingSeconds: 1500}` under the run-state key, leaves the history
collection untouched, and reading the run state back yields exactly that
record. -/
theorem C7_start_persists (toISO : Int → String) (nowMs : Int) (s : Store) :
    startStore toISO nowMs s =
      { runState := writeRunState
          { status := .running
            startedAtISO := some (toISO nowMs)
            endAtEpochMs := some ((nowMs : ℚ) + 1500 * 1000)
            remainingSec := 1500 }
        history := s.history } ∧
    readRunState (startStore toISO nowMs s).runState =
      { status := .running
        startedAtISO := some (toISO nowMs)
        endAtEpochMs := some ((nowMs : ℚ) + 1500 * 1000)
        remainingSec := 1500 } := by
  have hrec : start toISO nowMs = writeRunState
      { status := .running
        startedAtISO := some (toISO nowMs)
        endAtEpochMs := some ((nowMs : ℚ) + 1500 * 1000)
        remainingSec := 1500 } := by
    norm_num [start, POMODORO_SECONDS]
  constructor
  · simp [startStore, hrec]
  · rw [startStore, hrec]
    exact readRunState_writeRunState _
      ⟨⟨fun _ => by simp, by simp⟩, by norm_num, by norm_num [POMODORO_SECONDS]⟩

/-- C8: from any stored state reading back as `running` with deadline
`e`, if `computeRemainingSec e now = r` (which always lies in
`[0, 1500]`), then pausing at `now` and hydrating at any later time
returns a paused state with the same `remainingSec = r` and the original
`startedAt`. -/
theorem C8_pause_then_hydrate (cell : RunStateCell) (nowMs nowMs2 : Int) (e : ℚ) (r : Int)
    (hs : (readRunState cell).status = .running)
    (he : (readRunState cell).endAtEpochMs = some e)
    (hr : computeRemainingSec e nowMs = r) :
    hydrate (pause cell nowMs) nowMs2 =
      (writeRunState
        { status := .paused
          startedAtISO := (readRunState cell).startedAtISO
          endAtEpochMs := none
          remainingSec := r },
       { status := .paused
         startedAtISO := (readRunState cell).startedAtISO
         endAtEpochMs := none
         remainingSec := r }) := by
  have hpause : pause cell nowMs = writeRunState
      { status := .paused
        startedAtISO := (readRunState cell).startedAtISO
        endAtEpochMs := none
        remainingSec := computeRemainingSec e nowMs } := by
    unfold pause
    rw [hydrate_of_running cell nowMs e hs he]
    simp [hs, he]
  have hwf : WellFormedRun
      { status := RunStatus.paused
        startedAtISO := (readRunState cell).startedAtISO
        endAtEpochMs := none
        remainingSec := computeRemainingSec e nowMs } :=
    ⟨⟨fun h => by simp at h, fun h => by simp at h⟩,
      computeRemainingSec_nonneg e nowMs, computeRemainingSec_le e nowMs⟩
  have hround := readRunState_writeRunState _ hwf
  rw [hpause, hydrate_of_paused _ nowMs2 (by rw [hround]), hround]
  have hclamp : clampRemainingSec (.fin ((computeRemainingSec e nowMs : Int) : ℚ)) =
      computeRemainingSec e nowMs :=
    clampRemainingSec_of_mem _ (computeRemainingSec_nonneg e nowMs)
      (computeRemainingSec_le e nowMs)
  rw [hr] at hclamp
  simp [hr, hclamp]

/-- C8 witness: a running state with deadline 5000 ms paused at time 0
(5 seconds left) hydrates back to a paused state with `remainingSec = 5`
and the original `startedAt`. -/
theorem C8_witness :
    (readRunState (.json (.obj (.str "running") (.str "s") (.num (.fin 5000))
        (.num (.fin 1500))))).status = .running ∧
    computeRemainingSec 5000 0 = 5 ∧
    hydrate (pause (.json (.obj (.str "running") (.str "s") (.num (.fin 5000))
        (.num (.fin 1500)))) 0) 99 =
      (writeRunState
        { status := .paused
          startedAtISO := some "s"
          endAtEpochMs := none
          remainingSec := 5 },
       { status := .paused
         startedAtISO := some "s"
         endAtEpochMs := none
         remainingSec := 5 }) := by
  have hc := clampRemainingSec_intCast 1500
  norm_num at hc
  have hread : readRunState (.json (.obj (.str "running") (.str "s") (.num (.fin 5000))
      (.num (.fin 1500)))) =
      { status := .running
        startedAtISO := some "s"
        endAtEpochMs := some 5000
        remainingSec := 1500 } := by
    simp [readRunState, sanitizeState, parseStatus, parseStartedAt, parseEndAt,
      parseRemaining, hc]
  have hcompute : computeRemainingSec 5000 0 = 5 := by
    rw [computeRemainingSec_eq_clamp]
    norm_num
  refine ⟨by rw [hread], hcompute, ?_⟩
  have h := C8_pause_then_hydrate _ 0 99 5000 5 (by rw [hread]) (by rw [hread]) hcompute
  rw [h, hread]

/-- C9: `reset` is idempotent — it unconditionally writes the canonical
idle record, so running it twice leaves exactly the state one run
leaves. -/
theorem C9_reset_idempotent (cell : RunStateCell) :
    reset (reset cell) = reset cell := rfl

/-- C10: `clampRemainingSec` maps every non-finite number to 1500, and
consequently a stored record whose `remainingSec` field is a non-finite
number sanitizes to `remainingSec = 1500`, not 0. -/
theorem C10_clamp_nonfinite (x : JsNum) (hx : x.isFinite = false) (st sa ea : JsField) :
    clampRemainingSec x = 1500 ∧
    (sanitizeState (.obj st sa ea (.num x))).remainingSec = 1500 := by
  have h1 : clampRemainingSec x = 1500 := by
    cases x <;> simp_all [JsNum.isFinite, clampRemainingSec, POMODORO_SECONDS]
  refine ⟨h1, ?_⟩
  simp only [sanitizeState, parseRemaining]
  split
  · simp [createIdleState, POMODORO_SECONDS]
  · split <;> simp [h1]

/-- C10 witness: `clampRemainingSec NaN = 1500`, and a stored paused
record with `remainingSec = NaN` sanitizes to `remainingSec = 1500`. -/
theorem C10_witness :
    JsNum.isFinite .nan = false ∧
    clampRemainingSec .nan = 1500 ∧
    (sanitizeState (.obj (.str "paused") (.str "s") .other (.num .nan))).remainingSec =
      1500 := by
  obtain ⟨h1, h2⟩ := C10_clamp_nonfinite .nan rfl (.str "paused") (.str "s") .other
  exact ⟨rfl, h1, h2⟩

/-- C3 (amended): the history store does not itself enforce id
uniqueness — but whenever the appended entries carry pairwise-distinct
ids and the initial storage reads back empty (absent or corrupt), the
persisted collection contains no two entries with the same id. -/
theorem C3_ids_nodup (parseMs : String → Int) (cell : HistoryCell)
    (es : List SessionEntry)
    (h0 : readHistory parseMs cell = [])
    (hids : (es.map SessionEntry.id).Nodup) :
    ((readHistory parseMs (appendAll parseMs cell es)).map SessionEntry.id).Nodup := by
  have hp := readHistory_appendAll_perm parseMs es cell
  rw [h0, List.append_nil] at hp
  exact (hp.map SessionEntry.id).nodup_iff.mpr hids

/-- C3 witness: appending two entries with ids "a" and "b" to empty
storage yields a collection with pairwise-distinct ids. -/
theorem C3_witness :
    readHistory (fun _ => 0) HistoryCell.empty = [] ∧
    (([⟨"a", "s", "c"⟩, ⟨"b", "s", "c2"⟩] : List SessionEntry).map
      SessionEntry.id).Nodup ∧
    ((readHistory (fun _ => 0) (appendAll (fun _ => 0) HistoryCell.empty
        [⟨"a", "s", "c"⟩, ⟨"b", "s", "c2"⟩])).map SessionEntry.id).Nodup :=
  ⟨rfl, by simp, C3_ids_nodup (fun _ => 0) HistoryCell.empty _ rfl (by simp)⟩

/-- C3 counterexample: appending the same entry (id "a") twice to empty
storage yields a persisted collection holding two entries with id "a" —
`append` performs no dedup by id, so the claimed invariant fails for
this reachable collection.  (The constant `Date.parse` model is
adequate here: every comparison the run performs is between the same
`completedAtISO` string.) -/
theorem C3_counterexample :
    ¬ ((readHistory (fun _ => 0) (appendAll (fun _ => 0) HistoryCell.empty
        [⟨"a", "s", "c"⟩, ⟨"a", "s", "c"⟩])).map SessionEntry.id).Nodup := by
  intro h
  have hp := readHistory_appendAll_perm (fun _ => 0)
    [⟨"a", "s", "c"⟩, ⟨"a", "s", "c"⟩] HistoryCell.empty
  rw [show readHistory (fun _ => 0) HistoryCell.empty = [] from rfl,
    List.append_nil] at hp
  have hx := (hp.map SessionEntry.id).nodup_iff.mp h
  simp at hx

/-- C5: `getAll` returns exactly the stored elements passing the
SessionEntry shape check (up to the newest-first reordering, invalid
elements dropped); and after any sequence of `append` calls on
initially empty-or-corrupt storage whose entries have pairwise-distinct
`completedAtISO` timestamps, the returned collection is sorted strictly
descending by `completedAtISO`. -/
theorem C5_getAll_filter_sorted (parseMs : String → Int) (items : List HistItem)
    (cell : HistoryCell) (es : List SessionEntry)
    (h0 : readHistory parseMs cell = [])
    (hkeys : (es.map fun e => parseMs e.completedAtISO).Nodup) :
    List.Perm (normalizeHistory parseMs (.arr items)) (items.filterMap toSessionEntry) ∧
    (readHistory parseMs (appendAll parseMs cell es)).Pairwise
      (fun a b => parseMs b.completedAtISO < parseMs a.completedAtISO) := by
  constructor
  · exact List.mergeSort_perm _ _
  · cases es with
    | nil => simpa [appendAll] using h0 ▸ List.Pairwise.nil
    | cons e es2 =>
      have hsorted := readHistory_appendAll_sorted parseMs es2 e cell
      have hp := readHistory_appendAll_perm parseMs (e :: es2) cell
      rw [h0, List.append_nil] at hp
      have hnd : ((readHistory parseMs (appendAll parseMs cell (e :: es2))).map
          (fun x => parseMs x.completedAtISO)).Nodup :=
        (hp.map _).nodup_iff.mpr hkeys
      have hne := List.pairwise_map.mp hnd
      exact (hsorted.and hne).imp (fun h => lt_of_le_of_ne h.1 (Ne.symm h.2))

/-- C5 witness: a stored array with two valid and three invalid
elements (a non-object, a missing `startedAtISO`, a wrong
`durationSec`), and two appended entries with distinct timestamps
(modelled by string length) — the filter keeps exactly the valid
elements and the appended collection is sorted strictly descending. -/
theorem C5_witness :
    readHistory (fun s => (s.length : Int)) HistoryCell.empty = [] ∧
    ((([⟨"a", "s", "late9"⟩, ⟨"b", "s", "mid"⟩] : List SessionEntry)).map
      (fun e => ((e.completedAtISO.length : Int)))).Nodup ∧
    (List.Perm
      (normalizeHistory (fun s => (s.length : Int))
        (.arr [.obj (.str "a") (.str "s") (.str "late9") (.num (.fin 1500)),
               .notObject,
               .obj (.str "b") .missing (.str "mid") (.num (.fin 1500)),
               .obj (.str "c") (.str "s") (.str "mid") (.num (.fin 7))]))
      ([.obj (.str "a") (.str "s") (.str "late9") (.num (.fin 1500)),
        .notObject,
        .obj (.str "b") .missing (.str "mid") (.num (.fin 1500)),
        .obj (.str "c") (.str "s") (.str "mid") (.num (.fin 7))].filterMap
          toSessionEntry) ∧
     (readHistory (fun s => (s.length : Int))
        (appendAll (fun s => (s.length : Int)) HistoryCell.empty
          [⟨"a", "s", "late9"⟩, ⟨"b", "s", "mid"⟩])).Pairwise
       (fun a b => (b.completedAtISO.length : Int) < (a.completedAtISO.length : Int))) :=
  ⟨rfl, by decide,
    C5_getAll_filter_sorted (fun s => (s.length : Int)) _ HistoryCell.empty
      [⟨"a", "s", "late9"⟩, ⟨"b", "s", "mid"⟩] rfl (by decide)⟩

end MiniPomodoro
